import Mathlib

/-!
Shallow embedding of the turso-mini storage core (src/core): the varint codec,
the serial-type codec, the page-header codec, the completion state machine and
the in-memory file backend, together with theorems settling the frozen claims.

Machine integers are modelled as `Nat` with explicit reductions modulo powers
of two where the source relies on fixed-width behaviour; fallible Rust code
returning `Result` is modelled with `Except`, and a Rust `panic!` / `unwrap` /
`unreachable!` outcome is modelled by `Option.none` (documented per function).
-/

namespace TursoMini

/-- Model of `CompletionError` (src/core/error.rs): the single `IOError`
variant carries `std::io::ErrorKind`, modelled as an opaque numeric code. -/
inductive CompletionError where
  | ioError : Nat → CompletionError
deriving DecidableEq

/-- Model of `TursoMiniError` (src/core/error.rs); only the variants reachable
from the embedded code are listed. `corrupt` carries the formatted message. -/
inductive TursoMiniError where
  | corrupt : String → TursoMiniError
  | completionError : CompletionError → TursoMiniError
deriving DecidableEq

/-! ## Serial-type codec (src/core/types.rs) -/

/-- `SerialType` wraps the raw `u64` tag. -/
structure SerialType where
  val : Nat
deriving DecidableEq

/-- The twelve storage-class kinds of `SerialTypeKind` (src/core/types.rs). -/
inductive SerialTypeKind where
  | null
  | i8
  | i16
  | i24
  | i32
  | i48
  | i64
  | f64
  | constInt0
  | constInt1
  | text
  | blob
deriving DecidableEq

/-- `SerialType::u64_is_valid_serial_type`: `n != 10 && n != 11`. -/
def SerialType.u64_is_valid_serial_type (n : Nat) : Bool :=
  n ≠ 10 && n ≠ 11

/-- `SerialType::null()` returns `Self::NULL = Self(0)`. -/
def SerialType.null : SerialType := ⟨0⟩

/-- `SerialType::i8()` returns `Self::I8 = Self(1)`. -/
def SerialType.i8 : SerialType := ⟨1⟩

/-- `SerialType::i16()` returns `Self::I16 = Self(2)`. -/
def SerialType.i16 : SerialType := ⟨2⟩

/-- `SerialType::i24()` — the source body is `Self::I16`, i.e. the tag 2
constant, not `Self::I24` (tag 3). The embedding reproduces that body. -/
def SerialType.i24 : SerialType := SerialType.i16

/-- `SerialType::i32()` returns `Self::I32 = Self(4)`. -/
def SerialType.i32 : SerialType := ⟨4⟩

/-- `SerialType::i48()` returns `Self::I48 = Self(5)`. -/
def SerialType.i48 : SerialType := ⟨5⟩

/-- `SerialType::i64()` returns `Self::I64 = Self(6)`. -/
def SerialType.i64 : SerialType := ⟨6⟩

/-- `SerialType::f64()` returns `Self::F64 = Self(7)`. -/
def SerialType.f64 : SerialType := ⟨7⟩

/-- `SerialType::const_int0()` returns `Self::CONST_INT0 = Self(8)`. -/
def SerialType.const_int0 : SerialType := ⟨8⟩

/-- `SerialType::const_int1()` returns `Self::CONST_INT1 = Self(9)`. -/
def SerialType.const_int1 : SerialType := ⟨9⟩

/-- `SerialType::blob(size)` returns `Self(12 + size * 2)`. -/
def SerialType.blob (size : Nat) : SerialType := ⟨12 + size * 2⟩

/-- `SerialType::text(size)` returns `Self(13 + size * 2)`. -/
def SerialType.text (size : Nat) : SerialType := ⟨13 + size * 2⟩

/-- `SerialType::kind`. The source matches on the raw tag; tags `10` and `11`
fall into an `unreachable!()` arm, which aborts the process — modelled as
`none`. All other values return a `SerialTypeKind` (`some`). -/
def SerialType.kind (s : SerialType) : Option SerialTypeKind :=
  match s.val with
  | 0 => some .null
  | 1 => some .i8
  | 2 => some .i16
  | 3 => some .i24
  | 4 => some .i32
  | 5 => some .i48
  | 6 => some .i64
  | 7 => some .f64
  | 8 => some .constInt0
  | 9 => some .constInt1
  | n =>
    if 12 ≤ n then (if n % 2 = 0 then some .blob else some .text)
    else none

/-- `SerialType::size`, defined through `kind()`; a `kind()` panic (tags 10
and 11) propagates as `none`. -/
def SerialType.size (s : SerialType) : Option Nat :=
  s.kind.map fun k =>
    match k with
    | .null => 0
    | .i8 => 1
    | .i16 => 2
    | .i24 => 3
    | .i32 => 4
    | .i48 => 6
    | .i64 => 8
    | .f64 => 8
    | .constInt0 => 0
    | .constInt1 => 0
    | .blob => (s.val - 12) / 2
    | .text => (s.val - 13) / 2

/-! ## Page codec (src/core/storage/btree.rs offsets, sqlite3_ondisk.rs) -/

/-- Header-field offsets from `storage::btree::offset`. -/
def BTREE_PAGE_TYPE : Nat := 0

/-- Offset of the first-freeblock field. -/
def BTREE_FIRST_FREEBLOCK : Nat := 1

/-- Offset of the cell-count field. -/
def BTREE_CELL_COUNT : Nat := 3

/-- Offset of the cell-content-area field. -/
def BTREE_CELL_CONTENT_AREA : Nat := 5

/-- Offset of the fragmented-bytes counter. -/
def BTREE_FRAGMENTED_BYTES_COUNT : Nat := 7

/-- Offset of the rightmost-pointer field. -/
def BTREE_RIGHTMOST_PTR : Nat := 8

/-- `INTERIOR_PAGE_HEADER_SIZE_BYTES` (sqlite3_ondisk.rs). -/
def INTERIOR_PAGE_HEADER_SIZE_BYTES : Nat := 12

/-- `LEAF_PAGE_HEADER_SIZE_BYTES` (sqlite3_ondisk.rs). -/
def LEAF_PAGE_HEADER_SIZE_BYTES : Nat := 8

/-- The four B-tree page types, with their `u8` discriminants 2/5/10/13. -/
inductive PageType where
  | indexInterior
  | tableInterior
  | indexLeaf
  | tableLeaf
deriving DecidableEq

/-- The numeric discriminant of a `PageType` (`PageType as u8`). -/
def PageType.toU8 : PageType → Nat
  | .indexInterior => 2
  | .tableInterior => 5
  | .indexLeaf => 10
  | .tableLeaf => 13

/-- `impl TryFrom<u8> for PageType`: 2/5/10/13 convert; every other byte
returns the corruption error `Invalid page type: {value}`. -/
def PageType.tryFromU8 (value : Nat) : Except TursoMiniError PageType :=
  match value with
  | 2 => .ok .indexInterior
  | 5 => .ok .tableInterior
  | 10 => .ok .indexLeaf
  | 13 => .ok .tableLeaf
  | _ => .error (.corrupt ("Invalid page type: " ++ toString value))

/-- `PageContent` (sqlite3_ondisk.rs): a header offset (100 on page 1, else 0)
plus the backing buffer, modelled as its byte list. The `overflow_cells`
list is carried by the source struct but never read by the embedded
operations, so it is not modelled. -/
structure PageContent where
  offset : Nat
  buffer : List Nat
deriving DecidableEq

/-- Free function `read_u32(buf, pos)`: `u32::from_be_bytes` of the four
bytes at `pos`. Rust indexing panics out of bounds; the embedding totalises
with `getD _ 0`, and every theorem that depends on these bytes constrains
them explicitly. -/
def read_u32 (buf : List Nat) (pos : Nat) : Nat :=
  ((buf.getD pos 0 * 256 + buf.getD (pos + 1) 0) * 256
      + buf.getD (pos + 2) 0) * 256
    + buf.getD (pos + 3) 0

/-- `PageContent::read_u8(pos)`: byte at `offset + pos`. -/
def PageContent.read_u8 (p : PageContent) (pos : Nat) : Nat :=
  p.buffer.getD (p.offset + pos) 0

/-- `PageContent::read_u32(pos)`: `read_u32(buf, offset + pos)`. -/
def PageContent.read_u32 (p : PageContent) (pos : Nat) : Nat :=
  TursoMini.read_u32 p.buffer (p.offset + pos)

/-- `PageContent::page_type`: `self.read_u8(BTREE_PAGE_TYPE).try_into().unwrap()`.
The `unwrap` aborts the process on a conversion error — modelled as `none`;
a successful conversion is `some`. -/
def PageContent.page_type (p : PageContent) : Option PageType :=
  (PageType.tryFromU8 (p.read_u8 BTREE_PAGE_TYPE)).toOption

/-- `PageContent::maybe_page_type`: `self.read_u8(0).try_into().ok()` — here
`none` is a genuine returned `None` value, not a panic. -/
def PageContent.maybe_page_type (p : PageContent) : Option PageType :=
  (PageType.tryFromU8 (p.read_u8 0)).toOption

/-- `PageContent::header_size`: classifies by `read_u8(BTREE_PAGE_TYPE) <=
PageType::TableInterior as u8` and blends the two sizes arithmetically. -/
def PageContent.header_size (p : PageContent) : Nat :=
  (if p.read_u8 BTREE_PAGE_TYPE ≤ 5 then 1 else 0) * INTERIOR_PAGE_HEADER_SIZE_BYTES
    + (if p.read_u8 BTREE_PAGE_TYPE ≤ 5 then 0 else 1) * LEAF_PAGE_HEADER_SIZE_BYTES

/-- `PageContent::rightmost_pointer`: interior pages yield
`Some(read_u32(BTREE_RIGHTMOST_PTR))`, leaves yield `None`; the inner
`page_type()` call panics (outer `none`) on an invalid type byte. -/
def PageContent.rightmost_pointer (p : PageContent) : Option (Option Nat) :=
  match p.page_type with
  | some .indexInterior => some (some (p.read_u32 BTREE_RIGHTMOST_PTR))
  | some .tableInterior => some (some (p.read_u32 BTREE_RIGHTMOST_PTR))
  | some .indexLeaf => some none
  | some .tableLeaf => some none
  | none => none

/-! ## Completion (src/core/io/mod.rs) -/

/-- Observable state of one `Completion` (src/core/io/mod.rs): the
`OnceLock<Option<CompletionError>>` result slot (`none` = unset; `some none` =
success recorded; `some (some e)` = error recorded) together with the ordered
list of arguments the stored callback has been invoked with. -/
structure CompletionState where
  result : Option (Option CompletionError)
  callbackInvocations : List (Except CompletionError Int)

/-- Outcome of running `Completion::complete` / `Completion::error`: either
the call returns normally with the new state, or the
`.expect("result must be set only once")` fails and the process panics (the
state at the moment of the panic is recorded for the model). -/
inductive CompletionOutcome where
  | ok : CompletionState → CompletionOutcome
  | panicked : CompletionState → CompletionOutcome

/-- `Completion::new`: fresh state, result slot unset, callback never run. -/
def Completion.new : CompletionState := ⟨none, []⟩

/-- `Completion::complete(result)`: invokes the variant's callback with
`Ok(result)`, then performs `self.inner.result.set(None).expect(..)` — the
`OnceLock` set succeeds only if the slot was unset, otherwise the call
panics. -/
def Completion.complete (s : CompletionState) (result : Int) : CompletionOutcome :=
  let s1 : CompletionState :=
    { s with callbackInvocations := s.callbackInvocations ++ [.ok result] }
  match s1.result with
  | none => .ok { s1 with result := some none }
  | some _ => .panicked s1

/-- `Completion::error(err)`: invokes the callback with `Err(err)`, then
`self.inner.result.set(Some(err)).expect(..)`. -/
def Completion.error (s : CompletionState) (err : CompletionError) : CompletionOutcome :=
  let s1 : CompletionState :=
    { s with callbackInvocations := s.callbackInvocations ++ [.error err] }
  match s1.result with
  | none => .ok { s1 with result := some (some err) }
  | some _ => .panicked s1

/-! ## In-memory file backend (src/core/io/memory.rs) -/

/-- `PAGE_SIZE` of the in-memory backend. -/
def PAGE_SIZE : Nat := 4096

/-- The sparse page map `BTreeMap<usize, Box<[u8; PAGE_SIZE]>>`, modelled as a
function from page number to an optional page, a page being its byte
function (indices `0 ≤ i < PAGE_SIZE` are meaningful). -/
def MemPages : Type := Nat → Option (Nat → Nat)

/-- `MemoryFile`: the sparse page map plus the tracked logical size. The
`path` field of the source struct is never read by the embedded operations
and is not modelled. -/
structure MemoryFile where
  pages : MemPages
  size : Nat

/-- A fixed-length byte buffer (src/core/buffer.rs `Buffer`): the byte at
each index (meaningful for indices below `len`) plus the immutable length. -/
structure Buffer where
  data : Nat → Nat
  len : Nat

/-- `MemoryFile::get_page`. -/
def MemoryFile.get_page (f : MemoryFile) (page_no : Nat) : Option (Nat → Nat) :=
  f.pages page_no

/-- `get_or_allocate_page`, read side: the existing page, or a zero-filled
page on first touch. (The source also inserts the fresh page into the map;
in the embedding the insertion happens when the written page is stored,
which yields the same map because every allocated page is immediately
written.) -/
def getOrAllocatePage (pages : MemPages) (page_no : Nat) : Nat → Nat :=
  match pages page_no with
  | some p => p
  | none => fun _ => 0

/-- The byte the backend holds at absolute file offset `addr`: the byte of
the mapped page, or 0 when the page was never written. -/
def fileByte (pages : MemPages) (addr : Nat) : Nat :=
  match pages (addr / PAGE_SIZE) with
  | some p => p (addr % PAGE_SIZE)
  | none => 0

/-- The `while remaining > 0` loop shared by `pwrite` and (with its buggy
initialisation) `pwritev`: writes `remaining` bytes of `data` starting at
buffer index `buf_offset` to file offset `offset`, chunked at page
boundaries, storing each touched page back into the map. -/
def writeChunks (pages : MemPages) (offset remaining buf_offset : Nat)
    (data : Nat → Nat) : MemPages :=
  if _h : remaining = 0 then pages
  else
    writeChunks
      (fun k =>
        if k = offset / PAGE_SIZE then
          some (fun j =>
            if offset % PAGE_SIZE ≤ j ∧
                j < offset % PAGE_SIZE + min remaining (PAGE_SIZE - offset % PAGE_SIZE) then
              data (buf_offset + (j - offset % PAGE_SIZE))
            else getOrAllocatePage pages (offset / PAGE_SIZE) j)
        else pages k)
      (offset + min remaining (PAGE_SIZE - offset % PAGE_SIZE))
      (remaining - min remaining (PAGE_SIZE - offset % PAGE_SIZE))
      (buf_offset + min remaining (PAGE_SIZE - offset % PAGE_SIZE))
      data
termination_by remaining
decreasing_by
  simp only [PAGE_SIZE]
  omega

/-- The `while remaining > 0` loop of `pread`: fills `remaining` bytes of the
destination starting at `buf_offset` from file offset `offset`, chunked at
page boundaries; an absent page reads as zeroes (`fill(0)`). -/
def readChunks (pages : MemPages) (offset remaining buf_offset : Nat)
    (dest : Nat → Nat) : Nat → Nat :=
  if _h : remaining = 0 then dest
  else
    readChunks pages
      (offset + min remaining (PAGE_SIZE - offset % PAGE_SIZE))
      (remaining - min remaining (PAGE_SIZE - offset % PAGE_SIZE))
      (buf_offset + min remaining (PAGE_SIZE - offset % PAGE_SIZE))
      (fun j =>
        if buf_offset ≤ j ∧
            j < buf_offset + min remaining (PAGE_SIZE - offset % PAGE_SIZE) then
          match pages (offset / PAGE_SIZE) with
          | some page => page (offset % PAGE_SIZE + (j - buf_offset))
          | none => 0
        else dest j)
termination_by remaining
decreasing_by
  simp only [PAGE_SIZE]
  omega

/-- `MemoryFile::pread(pos, c)`: zero-length destination completes with 0;
`pos >= size` completes with 0; otherwise reads
`min(buf.len, size - pos)` bytes into the destination buffer and completes
with that count. Returns the destination buffer after the call together with
the completion value; the file itself is only read (`&self`), never
modified. -/
def MemoryFile.pread (f : MemoryFile) (pos : Nat) (buf : Buffer) : Buffer × Int :=
  if buf.len = 0 then (buf, 0)
  else if f.size ≤ pos then (buf, 0)
  else
    let read_len := min buf.len (f.size - pos)
    ({ buf with data := readChunks f.pages pos read_len 0 buf.data },
      (read_len : Int))

/-- `MemoryFile::pwrite(pos, buffer, c)`: zero-length source completes with 0
and touches nothing; otherwise writes the whole buffer at `pos`, sets
`size := max (pos + buf_len) size` and completes with `buf_len`. Returns the
file after the call and the completion value. -/
def MemoryFile.pwrite (f : MemoryFile) (pos : Nat) (buffer : Buffer) : MemoryFile × Int :=
  if buffer.len = 0 then (f, 0)
  else
    ({ pages := writeChunks f.pages pos buffer.len 0 buffer.data,
       size := max (pos + buffer.len) f.size },
      (buffer.len : Int))

/-- The per-buffer body of `MemoryFile::pwritev`'s outer loop. Empty buffers
are skipped. For a non-empty buffer the source initialises the inner loop
counter as `let mut remaining = offset;` — the current destination offset,
not the buffer length — so the inner loop writes `offset` bytes (none at all
when `offset = 0`), advances `offset` by that same amount, and afterwards
still adds the full buffer length to `total_written`. -/
def pwritevGo (pages : MemPages) (offset total_written : Nat) :
    List Buffer → MemPages × Nat × Nat
  | [] => (pages, offset, total_written)
  | buffer :: rest =>
    if buffer.len = 0 then pwritevGo pages offset total_written rest
    else
      pwritevGo (writeChunks pages offset offset 0 buffer.data)
        (offset + offset) (total_written + buffer.len) rest

/-- `MemoryFile::pwritev(pos, buffers, c)`: empty buffer list completes with
0; otherwise runs the (buggy) per-buffer loop, completes with
`total_written` and sets `size := max (pos + total_written) size`. -/
def MemoryFile.pwritev (f : MemoryFile) (pos : Nat) (buffers : List Buffer) :
    MemoryFile × Int :=
  if buffers.length = 0 then (f, 0)
  else
    let res := pwritevGo f.pages pos 0 buffers
    ({ pages := res.1, size := max (pos + res.2.2) f.size },
      (res.2.2 : Int))

/-! ## Varint codec (src/core/storage/sqlite3_ondisk.rs) -/

/-- The little-endian continuation-byte loop of `write_varint`'s general
path: `while bytes != 0 { encoded[n] = 0x80 | (bytes & 0x7f); bytes >>= 7 }`.
Produces the bytes in the order the source stores them into `encoded`
(least-significant 7-bit group first, every byte with the high bit set). -/
def encodeLoop (bytes : Nat) : List Nat :=
  if _h : bytes = 0 then []
  else (0x80 ||| (bytes &&& 0x7f)) :: encodeLoop (bytes >>> 7)
termination_by bytes
decreasing_by
  rw [Nat.shiftRight_eq_div_pow]
  exact Nat.div_lt_self (Nat.pos_of_ne_zero _h) (by norm_num)

/-- The `for i in (0..8).rev()` loop of `write_varint`'s 9-byte path:
`buf[i] = (value & 0x7f) | 0x80; value >>= 7`, producing `buf[0..k]` for a
countdown of `k` iterations (`buf[k-1]` uses the incoming value, `buf[0]`
the most-shifted one). -/
def contBytes (value : Nat) : Nat → List Nat
  | 0 => []
  | k + 1 => contBytes (value >>> 7) k ++ [(value &&& 0x7f) ||| 0x80]

/-- `write_varint(buf, value)`: returns the bytes the source writes into
`buf[0..n]`, in order; the returned byte count `n` is the list length. -/
def write_varint (value : Nat) : List Nat :=
  if value ≤ 0x7f then
    [value &&& 0x7f]
  else if value ≤ 0x3fff then
    [((value >>> 7) &&& 0x7f) ||| 0x80, value &&& 0x7f]
  else if 0 < value &&& (0xff000000 <<< 32) then
    -- buf[8] = value as u8 (the low 8 bits); buf[0..8] from the countdown loop
    contBytes (value >>> 8) 8 ++ [value % 256]
  else
    -- general path: clear the high bit of encoded[0], copy out reversed
    match encodeLoop value with
    | [] => []
    | c :: rest => ((c &&& 0x7f) :: rest).reverse

/-- The `while bytes != 0 { bytes >>= 7; n += 1 }` counter of `varint_len`. -/
def lenLoop (bytes : Nat) : Nat :=
  if _h : bytes = 0 then 0
  else lenLoop (bytes >>> 7) + 1
termination_by bytes
decreasing_by
  rw [Nat.shiftRight_eq_div_pow]
  exact Nat.div_lt_self (Nat.pos_of_ne_zero _h) (by norm_num)

/-- `varint_len(value)`: the encoded length, with the same three guards as
`write_varint` followed by the digit-counting loop. -/
def varint_len (value : Nat) : Nat :=
  if value ≤ 0x7f then 1
  else if value ≤ 0x3fff then 2
  else if 0 < value &&& (0xff000000 <<< 32) then 9
  else lenLoop value

/-- `read_varint`'s loop, carrying the accumulator `v`, the loop index `i`
and the not-yet-consumed suffix of the input slice (the source reads
`buf.get(i)` with `i` increasing one by one, so the byte read at index `i`
is the head of the suffix after `i` bytes were consumed). For `i < 8`:
accumulate 7 bits and stop with `Ok((v, i+1))` when the continuation bit is
clear; a missing byte is the corruption error. After 8 continuation bytes:
a missing 9th byte is a corruption error, `(v >> 48) == 0` is a corruption
error, otherwise the 9th byte contributes 8 raw bits. -/
def readVarintLoop (v i : Nat) : List Nat → Except String (Nat × Nat)
  | c :: rest =>
    if i < 8 then
      if (c &&& 0x80) = 0 then .ok ((v <<< 7) + (c &&& 0x7f), i + 1)
      else readVarintLoop ((v <<< 7) + (c &&& 0x7f)) (i + 1) rest
    else
      if v >>> 48 = 0 then .error "Invalid varint"
      else .ok ((v <<< 8) + c, 9)
  | [] =>
    if i < 8 then .error "Invalid varint"
    else .error "invalid varint"

/-- `read_varint(buf)`: run the loop from an empty accumulator at index 0. -/
def read_varint (buf : List Nat) : Except String (Nat × Nat) :=
  readVarintLoop 0 0 buf

/-- The 7-bit accumulator of `read_varint` over a list of bytes:
`v = (v << 7) + (c & 0x7f)` folded from 0. Used to state what the loop
computes from a consumed prefix. -/
def acc7 (bs : List Nat) : Nat :=
  bs.foldl (fun a c => (a <<< 7) + (c &&& 0x7f)) 0

/-! ## Helper lemmas -/

theorem and_127_eq_mod (x : Nat) : x &&& 127 = x % 128 :=
  Nat.and_pow_two_sub_one_eq_mod x 7

theorem or_128_eq_add {x : Nat} (h : x < 128) : x ||| 128 = x + 128 := by
  have h2 : (2 : Nat) ^ 7 * 1 + x = 2 ^ 7 * 1 ||| x := Nat.mul_add_lt_is_or h 1
  norm_num at h2
  rw [Nat.or_comm, ← h2, Nat.add_comm]

theorem and_128_eq_zero_iff (c : Nat) : c &&& 128 = 0 ↔ c / 128 % 2 = 0 := by
  have h := Nat.and_two_pow c 7
  rw [Nat.testBit_to_div_mod] at h
  by_cases h2 : c / 2 ^ 7 % 2 = 1
  · rw [decide_eq_true h2] at h
    norm_num at h
    rw [h]
    norm_num at h2
    omega
  · rw [decide_eq_false h2] at h
    norm_num at h
    rw [h]
    norm_num at h2
    omega

theorem and_shiftLeft_comm (v m k : Nat) : v &&& (m <<< k) = ((v >>> k) &&& m) <<< k := by
  apply Nat.eq_of_testBit_eq
  intro i
  simp only [Nat.testBit_and, Nat.testBit_shiftLeft, Nat.testBit_shiftRight]
  by_cases h : k ≤ i
  · have e : k + (i - k) = i := by omega
    simp [h, e]
  · have e : ¬ (i ≥ k) := by omega
    simp [e]

theorem high_mask_pos_iff {v : Nat} (hv : v < 2 ^ 64) :
    0 < v &&& (0xff000000 <<< 32) ↔ 2 ^ 56 ≤ v := by
  have e1 : (0xff000000 <<< 32 : Nat) = 255 <<< 56 := by decide
  rw [e1, and_shiftLeft_comm, Nat.shiftLeft_eq, Nat.shiftRight_eq_div_pow]
  have e2 : v / 2 ^ 56 &&& 255 = v / 2 ^ 56 % 256 := Nat.and_pow_two_sub_one_eq_mod _ 8
  rw [e2]
  omega

theorem mod_mul_acc (w k : Nat) :
    (w / 128 % 2 ^ (7 * k)) * 128 + w % 128 = w % 2 ^ (7 * (k + 1)) := by
  have e : (2:Nat) ^ (7 * (k + 1)) = 128 * 2 ^ (7 * k) := by
    have e0 : 7 * (k + 1) = 7 + 7 * k := by ring
    rw [e0, pow_add]
    norm_num
  rw [e, ← Nat.mod_mul_right_div_self]
  have e3 : w % (128 * 2 ^ (7 * k)) % 128 = w % 128 :=
    Nat.mod_mod_of_dvd w ⟨2 ^ (7 * k), rfl⟩
  have e4 := Nat.div_add_mod (w % (128 * 2 ^ (7 * k))) 128
  omega

theorem readVarintLoop_cons_stop {c : Nat} (v i : Nat) (rest : List Nat)
    (hi : i < 8) (hc : c < 128) :
    readVarintLoop v i (c :: rest) = .ok ((v <<< 7) + (c &&& 0x7f), i + 1) := by
  have hz : c &&& 128 = 0 := by
    rw [and_128_eq_zero_iff]
    omega
  simp [readVarintLoop, hi, hz]

theorem readVarintLoop_cons_cont {c : Nat} (v i : Nat) (rest : List Nat)
    (hi : i < 8) (hc1 : 128 ≤ c) (hc2 : c < 256) :
    readVarintLoop v i (c :: rest) =
      readVarintLoop ((v <<< 7) + (c &&& 0x7f)) (i + 1) rest := by
  have hz : ¬ c &&& 128 = 0 := by
    rw [and_128_eq_zero_iff]
    omega
  simp [readVarintLoop, hi, hz]

theorem contBytes_length (k : Nat) : ∀ w, (contBytes w k).length = k := by
  induction k with
  | zero => intro w; simp [contBytes]
  | succ k ih => intro w; simp [contBytes, ih]

theorem contByte_eq (w : Nat) : (w &&& 0x7f) ||| 0x80 = w % 128 + 128 := by
  rw [and_127_eq_mod]
  exact or_128_eq_add (Nat.mod_lt _ (by norm_num))

theorem readVarintLoop_contBytes (k : Nat) :
    ∀ (w v0 i : Nat) (rest : List Nat), i + k ≤ 8 →
      readVarintLoop v0 i (contBytes w k ++ rest) =
        readVarintLoop (v0 * 2 ^ (7 * k) + w % 2 ^ (7 * k)) (i + k) rest := by
  induction k with
  | zero =>
    intro w v0 i rest h
    simp [contBytes, Nat.mod_one]
  | succ k ih =>
    intro w v0 i rest h
    rw [show contBytes w (k + 1) = contBytes (w >>> 7) k ++ [(w &&& 0x7f) ||| 0x80] from rfl,
      List.append_assoc, ih (w >>> 7) v0 i _ (by omega), List.singleton_append, contByte_eq,
      readVarintLoop_cons_cont _ _ _ (by omega) (by omega) (by omega)]
    have e1 : (w % 128 + 128) &&& 0x7f = w % 128 := by
      rw [and_127_eq_mod]
      omega
    have e2 : w >>> 7 = w / 128 := by
      rw [Nat.shiftRight_eq_div_pow]
    rw [e1, e2, Nat.shiftLeft_eq]
    have e3 := mod_mul_acc w k
    have e4 : (2:Nat) ^ (7 * (k + 1)) = 2 ^ (7 * k) * 128 := by
      have e0 : 7 * (k + 1) = 7 * k + 7 := by ring
      rw [e0, pow_add]
      norm_num
    have e5 : (v0 * 2 ^ (7 * k) + w / 128 % 2 ^ (7 * k)) * 2 ^ 7 + w % 128 =
        v0 * 2 ^ (7 * (k + 1)) + w % 2 ^ (7 * (k + 1)) := by
      rw [← e3, e4]
      ring
    rw [e5]
    rfl

theorem shiftRight7_lt {w : Nat} (h : w ≠ 0) : w >>> 7 < w := by
  rw [Nat.shiftRight_eq_div_pow]
  exact Nat.div_lt_self (Nat.pos_of_ne_zero h) (by norm_num)

theorem pow7_succ (k : Nat) : (2:Nat) ^ (7 * (k + 1)) = 2 ^ (7 * k) * 128 := by
  have e0 : 7 * (k + 1) = 7 * k + 7 := by ring
  rw [e0, pow_add]
  norm_num

theorem encodeLoop_zero : encodeLoop 0 = [] := by
  rw [encodeLoop]
  simp

theorem encodeLoop_pos {w : Nat} (h : w ≠ 0) :
    encodeLoop w = (0x80 ||| (w &&& 0x7f)) :: encodeLoop (w >>> 7) := by
  rw [encodeLoop]
  simp [h]

theorem encodeLoop_reverse (w : Nat) :
    (encodeLoop w).reverse = contBytes w (encodeLoop w).length := by
  induction w using Nat.strong_induction_on with
  | _ w ih =>
    by_cases h : w = 0
    · subst h
      simp [encodeLoop_zero, contBytes]
    · rw [encodeLoop_pos h]
      simp only [List.reverse_cons, List.length_cons]
      rw [ih (w >>> 7) (shiftRight7_lt h),
        show contBytes w ((encodeLoop (w >>> 7)).length + 1) =
          contBytes (w >>> 7) (encodeLoop (w >>> 7)).length ++ [(w &&& 0x7f) ||| 0x80] from rfl]
      rw [Nat.or_comm]

theorem encodeLoop_length_le (k : Nat) :
    ∀ w, w < 2 ^ (7 * k) → (encodeLoop w).length ≤ k := by
  induction k with
  | zero =>
    intro w h
    norm_num at h
    subst h
    simp [encodeLoop_zero]
  | succ k ih =>
    intro w h
    by_cases h0 : w = 0
    · simp [h0, encodeLoop_zero]
    · rw [encodeLoop_pos h0]
      simp only [List.length_cons]
      have h2 : w >>> 7 < 2 ^ (7 * k) := by
        rw [Nat.shiftRight_eq_div_pow]
        rw [pow7_succ] at h
        omega
      exact Nat.succ_le_succ (ih _ h2)

theorem lt_two_pow_encodeLoop_length (w : Nat) :
    w < 2 ^ (7 * (encodeLoop w).length) := by
  induction w using Nat.strong_induction_on with
  | _ w ih =>
    by_cases h : w = 0
    · subst h
      simp [encodeLoop_zero]
    · rw [encodeLoop_pos h]
      simp only [List.length_cons]
      have ihh := ih (w >>> 7) (shiftRight7_lt h)
      set L := (encodeLoop (w >>> 7)).length with hL
      rw [Nat.shiftRight_eq_div_pow] at ihh
      rw [pow7_succ]
      omega

theorem lenLoop_eq_length (w : Nat) : lenLoop w = (encodeLoop w).length := by
  induction w using Nat.strong_induction_on with
  | _ w ih =>
    by_cases h : w = 0
    · subst h
      rw [lenLoop, encodeLoop_zero]
      simp
    · rw [lenLoop, encodeLoop_pos h]
      simp [h, ih (w >>> 7) (shiftRight7_lt h)]

theorem readVarintLoop_ninth {c : Nat} (v : Nat) (rest : List Nat) (h : ¬ v >>> 48 = 0) :
    readVarintLoop v 8 (c :: rest) = .ok ((v <<< 8) + c, 9) := by
  simp [readVarintLoop, h]

/-- C1: for every `u64` value `v`, decoding a buffer that starts with the
bytes `write_varint` emitted for `v` (any trailing bytes allowed, i.e. a
sufficiently large buffer) succeeds and returns exactly `(v, n)` where `n`
is the number of bytes emitted, and `varint_len v` equals that same `n`. -/
theorem C1_varint_roundtrip (v : Nat) (hv : v < 2 ^ 64) :
    (∀ rest : List Nat,
      read_varint (write_varint v ++ rest) = .ok (v, (write_varint v).length)) ∧
    varint_len v = (write_varint v).length := by
  have hshl7 : ∀ x : Nat, x <<< 7 = x * 128 := fun x => by
    rw [Nat.shiftLeft_eq]
  have hshl8 : ∀ x : Nat, x <<< 8 = x * 256 := fun x => by
    rw [Nat.shiftLeft_eq]
  by_cases h1 : v ≤ 0x7f
  · -- 1-byte fast path
    have e : write_varint v = [v &&& 0x7f] := by
      simp [write_varint, h1]
    have e2 : v &&& 0x7f = v := by
      rw [and_127_eq_mod]
      omega
    refine ⟨fun rest => ?_, ?_⟩
    · rw [read_varint, e, List.singleton_append,
        readVarintLoop_cons_stop _ _ _ (by omega) (by rw [e2]; omega)]
      simp [e2, Nat.zero_shiftLeft]
    · rw [e]
      simp [varint_len, h1]
  · by_cases h2 : v ≤ 0x3fff
    · -- 2-byte fast path
      have e : write_varint v = [((v >>> 7) &&& 0x7f) ||| 0x80, v &&& 0x7f] := by
        simp [write_varint, h1, h2]
      have ed : v >>> 7 = v / 128 := by
        rw [Nat.shiftRight_eq_div_pow]
      have eb0 : ((v >>> 7) &&& 0x7f) ||| 0x80 = v / 128 + 128 := by
        rw [contByte_eq, ed]
        omega
      have em : v &&& 0x7f = v % 128 := and_127_eq_mod v
      refine ⟨fun rest => ?_, ?_⟩
      · rw [read_varint, e, List.cons_append, List.singleton_append, eb0,
          readVarintLoop_cons_cont _ _ _ (by omega) (by omega) (by omega), em]
        have ea : (v / 128 + 128) &&& 0x7f = v / 128 := by
          rw [and_127_eq_mod]
          omega
        rw [ea, readVarintLoop_cons_stop _ _ _ (by omega) (by omega),
          hshl7, hshl7, and_127_eq_mod]
        have efin : (0 * 128 + v / 128) * 128 + v % 128 % 128 = v := by omega
        rw [efin]
        simp
      · rw [e]
        simp [varint_len, h1, h2]
    · by_cases h3 : 0 < v &&& (0xff000000 <<< 32)
      · -- 9-byte path
        have h56 : 2 ^ 56 ≤ v := (high_mask_pos_iff hv).mp h3
        have e : write_varint v = contBytes (v >>> 8) 8 ++ [v % 256] := by
          simp only [write_varint, if_neg h1, if_neg h2, if_pos h3]
        have ed : v >>> 8 = v / 256 := by
          rw [Nat.shiftRight_eq_div_pow]
        have e78 : (2:Nat) ^ (7 * 8) = 2 ^ 56 := by norm_num
        refine ⟨fun rest => ?_, ?_⟩
        · rw [read_varint, e, List.append_assoc,
            readVarintLoop_contBytes 8 _ _ _ _ (by omega), List.singleton_append]
          have hacc : 0 * 2 ^ (7 * 8) + (v >>> 8) % 2 ^ (7 * 8) = v / 256 := by
            rw [ed, e78]
            omega
          have hnz : ¬ (v / 256) >>> 48 = 0 := by
            rw [Nat.shiftRight_eq_div_pow]
            omega
          rw [hacc, readVarintLoop_ninth _ _ hnz, hshl8]
          have efin : v / 256 * 256 + v % 256 = v := by omega
          rw [efin]
          simp [contBytes_length]
        · rw [e]
          simp only [varint_len, if_neg h1, if_neg h2, if_pos h3]
          simp [contBytes_length]
      · -- general path (0x4000 ≤ v < 2^56)
        have hlt56 : v < 2 ^ 56 := by
          by_contra hc
          push_neg at hc
          exact h3 ((high_mask_pos_iff hv).mpr hc)
        have hv0 : v ≠ 0 := by omega
        have eE : encodeLoop v = (0x80 ||| (v &&& 0x7f)) :: encodeLoop (v >>> 7) :=
          encodeLoop_pos hv0
        have hc0 : (0x80 ||| (v &&& 0x7f)) &&& 0x7f = v % 128 := by
          rw [Nat.or_comm, contByte_eq, and_127_eq_mod]
          omega
        have e : write_varint v = (encodeLoop (v >>> 7)).reverse ++ [v % 128] := by
          simp only [write_varint, if_neg h1, if_neg h2, if_neg h3, eE]
          rw [List.reverse_cons, hc0]
        have ed : v >>> 7 = v / 128 := by
          rw [Nat.shiftRight_eq_div_pow]
        have e49 : (2:Nat) ^ (7 * 7) = 2 ^ 49 := by norm_num
        have hL7 : (encodeLoop (v >>> 7)).length ≤ 7 := by
          apply encodeLoop_length_le
          rw [ed, e49]
          omega
        have hsmall := lt_two_pow_encodeLoop_length (v >>> 7)
        refine ⟨fun rest => ?_, ?_⟩
        · rw [read_varint, e, encodeLoop_reverse, List.append_assoc,
            readVarintLoop_contBytes _ _ _ _ _ (by omega), List.singleton_append]
          have hacc : 0 * 2 ^ (7 * (encodeLoop (v >>> 7)).length) +
              (v >>> 7) % 2 ^ (7 * (encodeLoop (v >>> 7)).length) = v / 128 := by
            rw [Nat.mod_eq_of_lt hsmall, ed]
            omega
          rw [hacc, readVarintLoop_cons_stop _ _ _ (by omega) (by omega),
            hshl7, and_127_eq_mod]
          have efin : v / 128 * 128 + v % 128 % 128 = v := by omega
          rw [efin]
          simp [contBytes_length]
        · rw [e]
          simp only [varint_len, if_neg h1, if_neg h2, if_neg h3,
            lenLoop_eq_length, eE]
          simp [contBytes_length]

/-- C1 witness: the round trip instantiated at the concrete value 300. -/
theorem C1_varint_roundtrip_witness :
    300 < 2 ^ 64 ∧
    ((∀ rest : List Nat,
        read_varint (write_varint 300 ++ rest) = .ok (300, (write_varint 300).length)) ∧
      varint_len 300 = (write_varint 300).length) :=
  ⟨by norm_num, C1_varint_roundtrip 300 (by norm_num)⟩

theorem acc7_take_succ (buf : List Nat) (i : Nat) (h : i < buf.length) :
    acc7 (buf.take (i + 1)) = (acc7 (buf.take i) <<< 7) + (buf.getD i 0 &&& 0x7f) := by
  have e1 : buf.take (i + 1) = buf.take i ++ [buf[i]] := by
    rw [List.take_succ, List.getElem?_eq_getElem h]
    rfl
  rw [acc7, acc7, e1, List.foldl_append]
  simp [List.getD_eq_getElem?_getD, List.getElem?_eq_getElem h]

theorem readVarintLoop_prefix (pre : List Nat) :
    ∀ (v0 i : Nat) (rest : List Nat),
      (∀ b ∈ pre, 128 ≤ b ∧ b < 256) → i + pre.length ≤ 8 →
      readVarintLoop v0 i (pre ++ rest) =
        readVarintLoop (pre.foldl (fun a c => (a <<< 7) + (c &&& 0x7f)) v0)
          (i + pre.length) rest := by
  induction pre with
  | nil =>
    intro v0 i rest h hl
    simp
  | cons b pre ih =>
    intro v0 i rest h hl
    simp only [List.cons_append, List.length_cons] at *
    rw [readVarintLoop_cons_cont _ _ _ (by omega) (h b (by simp)).1 (h b (by simp)).2,
      ih _ _ _ (fun x hx => h x (by simp [hx])) (by omega)]
    simp only [List.foldl_cons]
    congr 1
    omega

/-- C3 counterexample: on this 9-byte input the accumulator after the eight
continuation bytes is `2 ^ 49`, whose top 16 bits are non-zero
(`2 ^ 49 >>> 48 = 2`), so the claim as stated demands a corruption failure;
`read_varint` instead succeeds with `(2 ^ 57, 9)`. -/
theorem C3_counterexample :
    acc7 [0x81, 0x80, 0x80, 0x80, 0x80, 0x80, 0x80, 0x80] >>> 48 ≠ 0 ∧
    read_varint [0x81, 0x80, 0x80, 0x80, 0x80, 0x80, 0x80, 0x80, 0x00] =
      .ok (144115188075855872, 9) := by
  constructor
  · decide
  · rfl

/-- C3 (amended): `read_varint` accumulates 7 bits from each of up to 8
bytes, stopping at the first byte whose continuation bit is clear; when all
8 leading bytes have the continuation bit set it fails with a corruption
error if a 9th byte is absent, and — with a 9th byte present — it fails
with a corruption error exactly when the accumulator's top 16 bits are
ZERO before incorporating the 9th byte; otherwise it incorporates the 9th
byte as 8 raw bits and succeeds. -/
theorem C3_read_varint_cases (buf : List Nat) (hbytes : ∀ b ∈ buf, b < 256) :
    (∀ i, i < 8 → ∀ hilen : i < buf.length,
      (∀ j, j < i → 128 ≤ buf.getD j 0) → buf.getD i 0 < 128 →
      read_varint buf = .ok (acc7 (buf.take (i + 1)), i + 1)) ∧
    ((∀ j, j < 8 → j < buf.length → 128 ≤ buf.getD j 0) → buf.length ≤ 8 →
      (read_varint buf = .error "Invalid varint" ∨
        read_varint buf = .error "invalid varint")) ∧
    ((∀ j, j < 8 → 128 ≤ buf.getD j 0) → 9 ≤ buf.length →
      (acc7 (buf.take 8) >>> 48 = 0 →
        read_varint buf = .error "Invalid varint") ∧
      (¬ acc7 (buf.take 8) >>> 48 = 0 →
        read_varint buf = .ok ((acc7 (buf.take 8) <<< 8) + buf.getD 8 0, 9))) := by
  refine ⟨?_, ?_, ?_⟩
  · intro i hi8 hilen hcont hstop
    have hpre : ∀ b ∈ buf.take i, 128 ≤ b ∧ b < 256 := by
      intro b hb
      obtain ⟨n, hn, hnb⟩ := List.mem_iff_getElem.mp hb
      have hn2 : n < i := by
        simp [List.length_take] at hn
        omega
      have hnlen : n < buf.length := by
        simp [List.length_take] at hn
        omega
      have hbeq : b = buf[n] := by
        rw [← hnb]
        simp [List.getElem_take]
      refine ⟨?_, hbytes b (List.mem_of_mem_take hb)⟩
      have hc := hcont n hn2
      rwa [List.getD_eq_getElem?_getD, List.getElem?_eq_getElem hnlen,
        Option.getD_some, ← hbeq] at hc
    have hlen : (buf.take i).length = i := by
      simp [List.length_take]
      omega
    have h2 : read_varint buf = readVarintLoop 0 0 (buf.take i ++ buf.drop i) := by
      rw [read_varint, List.take_append_drop]
    rw [h2, readVarintLoop_prefix _ _ _ _ hpre (by omega), hlen,
      List.drop_eq_getElem_cons hilen]
    have hgd : buf.getD i 0 = buf[i] := by
      simp [List.getD_eq_getElem?_getD, List.getElem?_eq_getElem hilen]
    rw [readVarintLoop_cons_stop _ _ _ (by omega) (by rw [← hgd]; exact hstop)]
    rw [acc7_take_succ buf i hilen, hgd, acc7]
    norm_num
  · intro hcont hle
    have hpre : ∀ b ∈ buf, 128 ≤ b ∧ b < 256 := by
      intro b hb
      obtain ⟨n, hn, hnb⟩ := List.mem_iff_getElem.mp hb
      have hc := hcont n (by omega) hn
      refine ⟨?_, hbytes b hb⟩
      rwa [List.getD_eq_getElem?_getD, List.getElem?_eq_getElem hn,
        Option.getD_some, hnb] at hc
    have h2 : read_varint buf = readVarintLoop (acc7 buf) (0 + buf.length) [] := by
      have h3 := readVarintLoop_prefix buf 0 0 [] hpre (by omega)
      rw [List.append_nil] at h3
      rw [read_varint, h3, acc7]
    by_cases hl8 : 0 + buf.length < 8
    · left
      rw [h2]
      simp only [readVarintLoop]
      rw [if_pos hl8]
    · right
      rw [h2]
      simp only [readVarintLoop]
      rw [if_neg hl8]
  · intro hcont hlen9
    have hpre : ∀ b ∈ buf.take 8, 128 ≤ b ∧ b < 256 := by
      intro b hb
      obtain ⟨n, hn, hnb⟩ := List.mem_iff_getElem.mp hb
      have hn2 : n < 8 := by
        simp [List.length_take] at hn
        omega
      have hnlen : n < buf.length := by
        simp [List.length_take] at hn
        omega
      have hbeq : b = buf[n] := by
        rw [← hnb]
        simp [List.getElem_take]
      refine ⟨?_, hbytes b (List.mem_of_mem_take hb)⟩
      have hc := hcont n hn2
      rwa [List.getD_eq_getElem?_getD, List.getElem?_eq_getElem hnlen,
        Option.getD_some, ← hbeq] at hc
    have hlen8 : (buf.take 8).length = 8 := by
      simp [List.length_take]
      omega
    have h8len : 8 < buf.length := by omega
    have h2 : read_varint buf = readVarintLoop 0 0 (buf.take 8 ++ buf.drop 8) := by
      rw [read_varint, List.take_append_drop]
    have hgd : buf.getD 8 0 = buf[8] := by
      simp [List.getD_eq_getElem?_getD, List.getElem?_eq_getElem h8len]
    rw [h2, readVarintLoop_prefix _ _ _ _ hpre (by omega), hlen8,
      List.drop_eq_getElem_cons h8len]
    constructor
    · intro hz
      rw [acc7] at hz
      simp [readVarintLoop, hz]
    · intro hnz
      rw [acc7] at hnz
      rw [show (0 + 8 : Nat) = 8 from rfl, readVarintLoop_ninth _ _ hnz, hgd, acc7]

/-- C3 witness: the amended behaviour applied to the concrete buffer
`[0x82, 0x2C]`, whose first byte continues and whose second stops. -/
theorem C3_read_varint_cases_witness :
    (∀ b ∈ [0x82, 0x2c], b < 256) ∧
    ((∀ i, i < 8 → ∀ hilen : i < ([0x82, 0x2c] : List Nat).length,
      (∀ j, j < i → 128 ≤ ([0x82, 0x2c] : List Nat).getD j 0) →
      ([0x82, 0x2c] : List Nat).getD i 0 < 128 →
      read_varint [0x82, 0x2c] =
        .ok (acc7 (([0x82, 0x2c] : List Nat).take (i + 1)), i + 1)) ∧
    ((∀ j, j < 8 → j < ([0x82, 0x2c] : List Nat).length →
        128 ≤ ([0x82, 0x2c] : List Nat).getD j 0) →
      ([0x82, 0x2c] : List Nat).length ≤ 8 →
      (read_varint [0x82, 0x2c] = .error "Invalid varint" ∨
        read_varint [0x82, 0x2c] = .error "invalid varint")) ∧
    ((∀ j, j < 8 → 128 ≤ ([0x82, 0x2c] : List Nat).getD j 0) →
      9 ≤ ([0x82, 0x2c] : List Nat).length →
      (acc7 (([0x82, 0x2c] : List Nat).take 8) >>> 48 = 0 →
        read_varint [0x82, 0x2c] = .error "Invalid varint") ∧
      (¬ acc7 (([0x82, 0x2c] : List Nat).take 8) >>> 48 = 0 →
        read_varint [0x82, 0x2c] =
          .ok ((acc7 (([0x82, 0x2c] : List Nat).take 8) <<< 8) +
            ([0x82, 0x2c] : List Nat).getD 8 0, 9)))) :=
  ⟨by decide, C3_read_varint_cases [0x82, 0x2c] (by decide)⟩

/-- C9: boundary byte counts — `0x7F` → 1 byte, `0x80` → 2, `0x3FFF` → 2,
`0x4000` → 3, any value with a bit among 56–63 set → 9 — and the literal
example: 300 encodes to `[0x82, 0x2C]`, and that buffer decodes to
`(300, 2)`. -/
theorem C9_varint_examples (v : Nat) (hv : v < 2 ^ 64) (hbit : 2 ^ 56 ≤ v) :
    (write_varint 0x7f).length = 1 ∧
    (write_varint 0x80).length = 2 ∧
    (write_varint 0x3fff).length = 2 ∧
    (write_varint 0x4000).length = 3 ∧
    (write_varint v).length = 9 ∧
    write_varint 300 = [0x82, 0x2c] ∧
    read_varint [0x82, 0x2c] = .ok (300, 2) := by
  refine ⟨rfl, rfl, rfl, ?_, ?_, rfl, rfl⟩
  · have e3 : encodeLoop 1 = [0x81] := by
      rw [encodeLoop_pos (by norm_num), show (1 >>> 7 : Nat) = 0 from rfl,
        encodeLoop_zero]
      decide
    have e2 : encodeLoop 128 = 0x80 :: encodeLoop 1 := by
      rw [encodeLoop_pos (by norm_num), show (128 >>> 7 : Nat) = 1 from rfl]
      congr 1
    have e1 : encodeLoop 0x4000 = 0x80 :: encodeLoop 128 := by
      rw [encodeLoop_pos (by norm_num), show (0x4000 >>> 7 : Nat) = 128 from rfl]
      congr 1
    simp only [write_varint]
    rw [if_neg (by norm_num), if_neg (by norm_num), if_neg (by decide),
      e1, e2, e3]
    decide
  · have h3 : 0 < v &&& (0xff000000 <<< 32) := (high_mask_pos_iff hv).mpr hbit
    have h1 : ¬ v ≤ 0x7f := by omega
    have h2 : ¬ v ≤ 0x3fff := by omega
    simp only [write_varint, if_neg h1, if_neg h2, if_pos h3]
    simp [contBytes_length]

/-- C9 witness: the boundary facts instantiated at `v = 2 ^ 56`, the least
value with a bit among 56–63 set. -/
theorem C9_varint_examples_witness :
    ((2 ^ 56 : Nat) < 2 ^ 64 ∧ (2 ^ 56 : Nat) ≤ 2 ^ 56) ∧
    ((write_varint 0x7f).length = 1 ∧
      (write_varint 0x80).length = 2 ∧
      (write_varint 0x3fff).length = 2 ∧
      (write_varint 0x4000).length = 3 ∧
      (write_varint (2 ^ 56)).length = 9 ∧
      write_varint 300 = [0x82, 0x2c] ∧
      read_varint [0x82, 0x2c] = .ok (300, 2)) :=
  ⟨⟨by norm_num, le_refl _⟩, C9_varint_examples (2 ^ 56) (by norm_num) (le_refl _)⟩

theorem SerialType_kind_ge_12 (m : Nat) (h : 12 ≤ m) :
    SerialType.kind ⟨m⟩ =
      (if m % 2 = 0 then some SerialTypeKind.blob else some SerialTypeKind.text) := by
  obtain ⟨r, rfl⟩ : ∃ r, m = r + 12 := ⟨m - 12, by omega⟩
  show (if 12 ≤ r + 12 then
      (if (r + 12) % 2 = 0 then some SerialTypeKind.blob else some SerialTypeKind.text)
    else none) = _
  rw [if_pos (by omega)]

/-- C4 (code-bug evidence): every fixed-codepoint constructor except `i24`
returns the claimed tag and payload size, and `blob`/`text` satisfy the
claimed tag/size/kind laws for every length — but `i24()` returns the I16
tag 2 with payload size 2, where the claim (and the source's own
`SerialTypeKind` numbering) demands tag 3 with size 3. -/
theorem C4_serial_type_facts (n : Nat) :
    SerialType.null.val = 0 ∧ SerialType.i8.val = 1 ∧ SerialType.i16.val = 2 ∧
    SerialType.i32.val = 4 ∧ SerialType.i48.val = 5 ∧ SerialType.i64.val = 6 ∧
    SerialType.f64.val = 7 ∧ SerialType.const_int0.val = 8 ∧
    SerialType.const_int1.val = 9 ∧
    SerialType.null.size = some 0 ∧ SerialType.i8.size = some 1 ∧
    SerialType.i16.size = some 2 ∧ SerialType.i32.size = some 4 ∧
    SerialType.i48.size = some 6 ∧ SerialType.i64.size = some 8 ∧
    SerialType.f64.size = some 8 ∧ SerialType.const_int0.size = some 0 ∧
    SerialType.const_int1.size = some 0 ∧
    SerialType.i24.val = 2 ∧ SerialType.i24.size = some 2 ∧
    (SerialType.blob n).val = 12 + 2 * n ∧
    (SerialType.text n).val = 13 + 2 * n ∧
    (SerialType.blob n).kind = some SerialTypeKind.blob ∧
    (SerialType.text n).kind = some SerialTypeKind.text ∧
    (SerialType.blob n).size = some n ∧
    (SerialType.text n).size = some n := by
  have hkb : (SerialType.blob n).kind = some SerialTypeKind.blob := by
    show SerialType.kind ⟨12 + n * 2⟩ = some SerialTypeKind.blob
    rw [SerialType_kind_ge_12 _ (by omega), if_pos (by omega)]
  have hkt : (SerialType.text n).kind = some SerialTypeKind.text := by
    show SerialType.kind ⟨13 + n * 2⟩ = some SerialTypeKind.text
    rw [SerialType_kind_ge_12 _ (by omega), if_neg (by omega)]
  refine ⟨rfl, rfl, rfl, rfl, rfl, rfl, rfl, rfl, rfl,
    rfl, rfl, rfl, rfl, rfl, rfl, rfl, rfl, rfl, rfl, rfl,
    by simp [SerialType.blob]; ring, by simp [SerialType.text]; ring,
    hkb, hkt, ?_, ?_⟩
  · rw [SerialType.size, hkb]
    simp [SerialType.blob]
  · rw [SerialType.size, hkt]
    simp [SerialType.text]

/-- C5 counterexample: a page whose type byte is 7 makes
`PageContent::page_type` panic (the `unwrap` aborts, modelled `none`)
instead of returning an error value to the caller, and `SerialType::kind`
on the invalid tags 10 and 11 likewise panics (`unreachable!`, modelled
`none`) instead of returning a corruption error. -/
theorem C5_counterexample :
    PageContent.page_type ⟨0, [7, 0, 0, 0, 0, 0, 0, 0, 0, 0, 0, 0]⟩ = none ∧
    SerialType.kind ⟨10⟩ = none ∧
    SerialType.kind ⟨11⟩ = none := by
  refine ⟨rfl, rfl, rfl⟩

/-- C5 (amended): for decoded bytes violating a structural invariant, the
fallible conversion `TryFrom<u8> for PageType` returns a corruption error
value (and `maybe_page_type` surfaces it as `None`), but
`PageContent::page_type` unwraps that result and panics, and
`SerialType::kind` on tags 10/11 panics via `unreachable!` — neither
returns an error value; `u64_is_valid_serial_type` is the check callers
must use first. -/
theorem C5_invalid_bytes (b : Nat) (p : PageContent) (s : SerialType)
    (hb2 : b ≠ 2) (hb5 : b ≠ 5) (hb10 : b ≠ 10) (hb13 : b ≠ 13)
    (hpb : p.read_u8 BTREE_PAGE_TYPE = b)
    (hs : s.val = 10 ∨ s.val = 11) :
    PageType.tryFromU8 b = .error (.corrupt ("Invalid page type: " ++ toString b)) ∧
    p.maybe_page_type = none ∧
    p.page_type = none ∧
    s.kind = none ∧
    SerialType.u64_is_valid_serial_type s.val = false := by
  have ht : PageType.tryFromU8 b =
      .error (.corrupt ("Invalid page type: " ++ toString b)) := by
    unfold PageType.tryFromU8
    split
    all_goals first
      | rfl
      | (exact absurd rfl hb2)
      | (exact absurd rfl hb5)
      | (exact absurd rfl hb10)
      | (exact absurd rfl hb13)
  have hpb0 : p.read_u8 0 = b := hpb
  refine ⟨ht, ?_, ?_, ?_, ?_⟩
  · rw [PageContent.maybe_page_type, hpb0, ht]
    rfl
  · rw [PageContent.page_type, hpb, ht]
    rfl
  · obtain ⟨v⟩ := s
    simp only at hs
    rcases hs with h | h <;> subst h <;> rfl
  · obtain ⟨v⟩ := s
    simp only at hs
    rcases hs with h | h <;> subst h <;> rfl

/-- C5 witness: the amended statement at page-type byte 7 and serial tag 10. -/
theorem C5_invalid_bytes_witness :
    ((7:Nat) ≠ 2 ∧ (7:Nat) ≠ 5 ∧ (7:Nat) ≠ 10 ∧ (7:Nat) ≠ 13 ∧
      PageContent.read_u8 ⟨0, [7]⟩ BTREE_PAGE_TYPE = 7 ∧
      ((SerialType.mk 10).val = 10 ∨ (SerialType.mk 10).val = 11)) ∧
    (PageType.tryFromU8 7 =
        .error (.corrupt ("Invalid page type: " ++ toString 7)) ∧
      PageContent.maybe_page_type ⟨0, [7]⟩ = none ∧
      PageContent.page_type ⟨0, [7]⟩ = none ∧
      (SerialType.mk 10).kind = none ∧
      SerialType.u64_is_valid_serial_type (SerialType.mk 10).val = false) :=
  ⟨⟨by decide, by decide, by decide, by decide, rfl, Or.inl rfl⟩,
    C5_invalid_bytes 7 ⟨0, [7]⟩ ⟨10⟩ (by decide) (by decide) (by decide)
      (by decide) rfl (Or.inl rfl)⟩

/-- C8: on every page whose type byte is one of {2,5,10,13}, `header_size`
returns 12 exactly for the interior types 2 and 5 and 8 for the leaf types
10 and 13, and `rightmost_pointer` returns the 4-byte big-endian field at
header offset 8 exactly for the interior types and `None` for the leaves —
the same classification for both. -/
theorem C8_header_classification (p : PageContent)
    (h : p.read_u8 BTREE_PAGE_TYPE = 2 ∨ p.read_u8 BTREE_PAGE_TYPE = 5 ∨
      p.read_u8 BTREE_PAGE_TYPE = 10 ∨ p.read_u8 BTREE_PAGE_TYPE = 13) :
    ((p.read_u8 BTREE_PAGE_TYPE = 2 ∨ p.read_u8 BTREE_PAGE_TYPE = 5) →
      p.header_size = 12 ∧
      p.rightmost_pointer = some (some (read_u32 p.buffer (p.offset + 8)))) ∧
    ((p.read_u8 BTREE_PAGE_TYPE = 10 ∨ p.read_u8 BTREE_PAGE_TYPE = 13) →
      p.header_size = 8 ∧ p.rightmost_pointer = some none) := by
  constructor
  · intro h2
    rcases h2 with hb | hb <;>
      constructor <;>
        simp [PageContent.header_size, PageContent.rightmost_pointer,
          PageContent.page_type, PageType.tryFromU8, hb, PageContent.read_u32,
          INTERIOR_PAGE_HEADER_SIZE_BYTES, LEAF_PAGE_HEADER_SIZE_BYTES,
          BTREE_RIGHTMOST_PTR, Except.toOption]
  · intro h2
    rcases h2 with hb | hb <;>
      constructor <;>
        simp [PageContent.header_size, PageContent.rightmost_pointer,
          PageContent.page_type, PageType.tryFromU8, hb, PageContent.read_u32,
          INTERIOR_PAGE_HEADER_SIZE_BYTES, LEAF_PAGE_HEADER_SIZE_BYTES,
          BTREE_RIGHTMOST_PTR, Except.toOption]

/-- C8 witness: a table-interior page (type byte 5) with rightmost pointer
bytes 0,0,1,2, and a table-leaf page (type byte 13). -/
theorem C8_header_classification_witness :
    (PageContent.read_u8 ⟨0, [5, 0, 0, 0, 0, 0, 0, 0, 0, 0, 1, 2]⟩ BTREE_PAGE_TYPE = 2 ∨
      PageContent.read_u8 ⟨0, [5, 0, 0, 0, 0, 0, 0, 0, 0, 0, 1, 2]⟩ BTREE_PAGE_TYPE = 5 ∨
      PageContent.read_u8 ⟨0, [5, 0, 0, 0, 0, 0, 0, 0, 0, 0, 1, 2]⟩ BTREE_PAGE_TYPE = 10 ∨
      PageContent.read_u8 ⟨0, [5, 0, 0, 0, 0, 0, 0, 0, 0, 0, 1, 2]⟩ BTREE_PAGE_TYPE = 13) ∧
    PageContent.header_size ⟨0, [5, 0, 0, 0, 0, 0, 0, 0, 0, 0, 1, 2]⟩ = 12 ∧
    PageContent.rightmost_pointer ⟨0, [5, 0, 0, 0, 0, 0, 0, 0, 0, 0, 1, 2]⟩ =
      some (some 258) ∧
    PageContent.header_size ⟨0, [13, 0, 0, 0, 0, 0, 0, 0]⟩ = 8 ∧
    PageContent.rightmost_pointer ⟨0, [13, 0, 0, 0, 0, 0, 0, 0]⟩ = some none := by
  have h5 := C8_header_classification ⟨0, [5, 0, 0, 0, 0, 0, 0, 0, 0, 0, 1, 2]⟩
    (Or.inr (Or.inl rfl))
  have h13 := C8_header_classification ⟨0, [13, 0, 0, 0, 0, 0, 0, 0]⟩
    (Or.inr (Or.inr (Or.inr rfl)))
  have e5 := h5.1 (Or.inr rfl)
  have e13 := h13.2 (Or.inr rfl)
  exact ⟨Or.inr (Or.inl rfl), e5.1, by rw [e5.2]; rfl, e13.1, e13.2⟩

/-- C6: on a completion whose result slot is still unset, `complete` (resp.
`error`) records the terminal result (`some none` resp. `some (some e)`) and
invokes the callback exactly once (the invocation list grows by exactly one
entry); on a completion whose result slot is already set, any further
`complete` or `error` panics (the `OnceLock` set fails its `expect`) rather
than returning. -/
theorem C6_completion_single_resolution
    (s : CompletionState) (hs : s.result = none)
    (r r2 : Int) (e e2 : CompletionError)
    (s2 : CompletionState) (o : Option CompletionError) (hs2 : s2.result = some o) :
    Completion.complete s r =
      .ok ⟨some none, s.callbackInvocations ++ [.ok r]⟩ ∧
    Completion.error s e =
      .ok ⟨some (some e), s.callbackInvocations ++ [.error e]⟩ ∧
    Completion.complete s2 r2 =
      .panicked ⟨some o, s2.callbackInvocations ++ [.ok r2]⟩ ∧
    Completion.error s2 e2 =
      .panicked ⟨some o, s2.callbackInvocations ++ [.error e2]⟩ := by
  refine ⟨?_, ?_, ?_, ?_⟩ <;>
    simp [Completion.complete, Completion.error, hs, hs2]

/-- C6 witness: a fresh completion resolved with 5, then the state it left
behind double-resolved. -/
theorem C6_completion_single_resolution_witness :
    (Completion.new.result = none ∧
      (CompletionState.mk (some none) [Except.ok 5]).result = some none) ∧
    (Completion.complete Completion.new 5 =
        .ok ⟨some none, [] ++ [.ok 5]⟩ ∧
      Completion.error Completion.new (.ioError 1) =
        .ok ⟨some (some (.ioError 1)), [] ++ [.error (.ioError 1)]⟩ ∧
      Completion.complete ⟨some none, [Except.ok 5]⟩ 6 =
        .panicked ⟨some none, [Except.ok 5] ++ [.ok 6]⟩ ∧
      Completion.error ⟨some none, [Except.ok 5]⟩ (.ioError 2) =
        .panicked ⟨some none, [Except.ok 5] ++ [.error (.ioError 2)]⟩) :=
  ⟨⟨rfl, rfl⟩,
    C6_completion_single_resolution Completion.new rfl 5 6 (.ioError 1)
      (.ioError 2) ⟨some none, [Except.ok 5]⟩ none rfl⟩

/-- C10: a zero-length `pread` destination or `pwrite` source makes the
operation complete immediately with byte count 0 and change nothing: the
returned destination buffer is untouched and `pwrite` returns the file
unchanged (same page map and same size), for every position — including
positions beyond the current size, so an empty write past the end does not
extend the file. (`pread` takes the file immutably in the source, so the
embedding's `pread` cannot change the file at all by construction.) -/
theorem C10_zero_length_ops (f : MemoryFile) (pos : Nat) (d : Nat → Nat) :
    f.pread pos ⟨d, 0⟩ = (⟨d, 0⟩, 0) ∧ f.pwrite pos ⟨d, 0⟩ = (f, 0) := by
  constructor <;> simp [MemoryFile.pread, MemoryFile.pwrite]

theorem writeChunks_zero (pages : MemPages) (offset buf_offset : Nat)
    (data : Nat → Nat) : writeChunks pages offset 0 buf_offset data = pages := by
  rw [writeChunks]
  simp

/-- C2 (code-bug evidence): `pwritev` at position 0 with a single 3-byte
buffer of 7s writes nothing at all — the inner loop's counter is
initialised to `offset` (= 0) instead of the buffer length — yet it
completes the operation with byte count 3 and sets the file size to 3:
every byte of the resulting file still reads 0, contradicting the claim
that the buffer's bytes land at offsets 0..2. -/
theorem C2_pwritev_bug :
    (MemoryFile.pwritev ⟨fun _ => none, 0⟩ 0 [⟨fun _ => 7, 3⟩]).2 = 3 ∧
    (MemoryFile.pwritev ⟨fun _ => none, 0⟩ 0 [⟨fun _ => 7, 3⟩]).1.size = 3 ∧
    ∀ i, fileByte (MemoryFile.pwritev ⟨fun _ => none, 0⟩ 0 [⟨fun _ => 7, 3⟩]).1.pages i = 0 := by
  have e : pwritevGo (fun _ => none) 0 0 [⟨fun _ => 7, 3⟩] =
      ((fun _ => none : MemPages), 0, 3) := by
    simp [pwritevGo, writeChunks_zero]
  refine ⟨?_, ?_, ?_⟩ <;>
    simp [MemoryFile.pwritev, e, fileByte]

theorem fileByte_def (pages : MemPages) (addr : Nat) :
    fileByte pages addr =
      match pages (addr / PAGE_SIZE) with
      | some p => p (addr % PAGE_SIZE)
      | none => 0 := rfl

theorem readChunks_zero (pages : MemPages) (offset buf_offset : Nat)
    (dest : Nat → Nat) : readChunks pages offset 0 buf_offset dest = dest := by
  rw [readChunks]
  simp

theorem readChunks_spec (remaining : Nat) :
    ∀ (pages : MemPages) (offset buf_offset : Nat) (dest : Nat → Nat) (j : Nat),
      readChunks pages offset remaining buf_offset dest j =
        if buf_offset ≤ j ∧ j < buf_offset + remaining then
          fileByte pages (offset + (j - buf_offset))
        else dest j := by
  induction remaining using Nat.strong_induction_on with
  | _ remaining ih =>
    intro pages offset buf_offset dest j
    by_cases h0 : remaining = 0
    · subst h0
      rw [readChunks_zero, if_neg (by omega)]
    · rw [readChunks, dif_neg h0,
        ih (remaining - min remaining (PAGE_SIZE - offset % PAGE_SIZE))
          (by simp only [PAGE_SIZE]; omega)]
      simp only [PAGE_SIZE]
      by_cases hj1 : buf_offset ≤ j ∧
          j < buf_offset + min remaining (4096 - offset % 4096)
      · rw [if_neg (by omega)]
        try simp only []
        rw [if_pos hj1, if_pos (by omega), fileByte_def]
        simp only [PAGE_SIZE]
        have hdiv : (offset + (j - buf_offset)) / 4096 = offset / 4096 := by omega
        have hmd : (offset + (j - buf_offset)) % 4096 =
            offset % 4096 + (j - buf_offset) := by omega
        rw [hdiv, hmd]
      · by_cases hj2 : buf_offset ≤ j ∧ j < buf_offset + remaining
        · rw [if_pos (by omega), if_pos hj2]
          congr 1
          omega
        · rw [if_neg (by omega), if_neg hj2]
          try simp only []
          rw [if_neg hj1]

theorem writeChunks_spec (remaining : Nat) :
    ∀ (pages : MemPages) (offset buf_offset : Nat) (data : Nat → Nat) (a : Nat),
      fileByte (writeChunks pages offset remaining buf_offset data) a =
        if offset ≤ a ∧ a < offset + remaining then
          data (buf_offset + (a - offset))
        else fileByte pages a := by
  induction remaining using Nat.strong_induction_on with
  | _ remaining ih =>
    intro pages offset buf_offset data a
    by_cases h0 : remaining = 0
    · subst h0
      rw [writeChunks_zero, if_neg (by omega)]
    · rw [writeChunks, dif_neg h0,
        ih (remaining - min remaining (PAGE_SIZE - offset % PAGE_SIZE))
          (by simp only [PAGE_SIZE]; omega)]
      simp only [PAGE_SIZE]
      by_cases ha1 : offset + min remaining (4096 - offset % 4096) ≤ a ∧
          a < offset + remaining
      · rw [if_pos (by omega), if_pos (by omega)]
        congr 1
        omega
      · by_cases ha2 : offset ≤ a ∧
            a < offset + min remaining (4096 - offset % 4096)
        · rw [if_neg (by omega), if_pos (by omega), fileByte_def]
          simp only [PAGE_SIZE]
          have hdiv : a / 4096 = offset / 4096 := by omega
          rw [hdiv, if_pos rfl]
          try simp only []
          have hmd : a % 4096 = offset % 4096 + (a - offset) := by omega
          rw [if_pos (by omega)]
          congr 1
          omega
        · rw [if_neg (by omega), if_neg (by omega), fileByte_def, fileByte_def]
          simp only [PAGE_SIZE]
          by_cases hpg : a / 4096 = offset / 4096
          · rw [hpg, if_pos rfl]
            try simp only []
            rw [if_neg (by omega)]
            cases hp : pages (offset / 4096) with
            | some p => simp [getOrAllocatePage, hp]
            | none => simp [getOrAllocatePage, hp]
          · rw [if_neg hpg]

/-- C7: with a non-empty destination buffer, `pread` at or beyond the
current size completes with 0 bytes and leaves the buffer untouched;
otherwise it completes with `min buf.len (size - pos)` bytes and returns,
at every index below that count, exactly the backend's byte at the
corresponding file offset. `pwrite` stores every source byte at its file
offset and changes no other byte, a never-written page reads as zero, and
a `pwrite` followed by a `pread` of the same range yields identical
bytes. -/
theorem C7_pread_pwrite_roundtrip (f : MemoryFile) (pos : Nat) (buf : Buffer)
    (hlen : 0 < buf.len) :
    (f.size ≤ pos → f.pread pos buf = (buf, 0)) ∧
    (pos < f.size →
      (f.pread pos buf).2 = ((min buf.len (f.size - pos) : Nat) : Int) ∧
      ∀ i, i < min buf.len (f.size - pos) →
        (f.pread pos buf).1.data i = fileByte f.pages (pos + i)) ∧
    (∀ src : Buffer, 0 < src.len →
      (∀ i, i < src.len →
        fileByte ((f.pwrite pos src).1).pages (pos + i) = src.data i) ∧
      (∀ a, a < pos ∨ pos + src.len ≤ a →
        fileByte ((f.pwrite pos src).1).pages a = fileByte f.pages a) ∧
      (src.len = buf.len →
        ∀ i, i < src.len →
          (((f.pwrite pos src).1).pread pos buf).1.data i = src.data i)) ∧
    (∀ addr, f.pages (addr / PAGE_SIZE) = none → fileByte f.pages addr = 0) := by
  have hlen0 : ¬ buf.len = 0 := by omega
  refine ⟨?_, ?_, ?_, ?_⟩
  · intro h
    simp only [MemoryFile.pread, if_neg hlen0, if_pos h]
  · intro h
    constructor
    · simp only [MemoryFile.pread, if_neg hlen0,
        if_neg (by omega : ¬ f.size ≤ pos)]
    · intro i hi
      simp only [MemoryFile.pread, if_neg hlen0,
        if_neg (by omega : ¬ f.size ≤ pos)]
      rw [readChunks_spec, if_pos (by omega)]
      congr 1
  · intro src hsrc
    have hsrc0 : ¬ src.len = 0 := by omega
    have hw : ∀ a, fileByte ((f.pwrite pos src).1).pages a =
        if pos ≤ a ∧ a < pos + src.len then src.data (0 + (a - pos))
        else fileByte f.pages a := by
      intro a
      simp only [MemoryFile.pwrite, if_neg hsrc0]
      exact writeChunks_spec _ _ _ _ _ _
    have hsize : ((f.pwrite pos src).1).size = max (pos + src.len) f.size := by
      simp only [MemoryFile.pwrite, if_neg hsrc0]
    refine ⟨?_, ?_, ?_⟩
    · intro i hi
      rw [hw, if_pos (by omega)]
      congr 1
      omega
    · intro a ha
      rw [hw, if_neg (by omega)]
    · intro hbuflen i hi
      simp only [MemoryFile.pread, if_neg hlen0]
      rw [if_neg (by rw [hsize]; omega)]
      simp only []
      rw [readChunks_spec, if_pos (by rw [hsize]; omega)]
      rw [hw, if_pos (by omega)]
      congr 1
      omega
  · intro addr h
    rw [fileByte_def, h]

/-- C7 witness: the theorem applied to a file of size 4 with an empty page
map, position 1 and a 2-byte destination buffer. -/
theorem C7_pread_pwrite_roundtrip_witness :
    0 < (Buffer.mk (fun _ => 0) 2).len ∧
    ((MemoryFile.mk (fun _ => none) 4).size ≤ 1 →
      (MemoryFile.mk (fun _ => none) 4).pread 1 ⟨fun _ => 0, 2⟩ =
        (⟨fun _ => 0, 2⟩, 0)) ∧
    (1 < (MemoryFile.mk (fun _ => none) 4).size →
      ((MemoryFile.mk (fun _ => none) 4).pread 1 ⟨fun _ => 0, 2⟩).2 =
        ((min (Buffer.mk (fun _ => 0) 2).len
          ((MemoryFile.mk (fun _ => none) 4).size - 1) : Nat) : Int) ∧
      ∀ i, i < min (Buffer.mk (fun _ => 0) 2).len
          ((MemoryFile.mk (fun _ => none) 4).size - 1) →
        ((MemoryFile.mk (fun _ => none) 4).pread 1 ⟨fun _ => 0, 2⟩).1.data i =
          fileByte (MemoryFile.mk (fun _ => none) 4).pages (1 + i)) ∧
    (∀ src : Buffer, 0 < src.len →
      (∀ i, i < src.len →
        fileByte (((MemoryFile.mk (fun _ => none) 4).pwrite 1 src).1).pages (1 + i) =
          src.data i) ∧
      (∀ a, a < 1 ∨ 1 + src.len ≤ a →
        fileByte (((MemoryFile.mk (fun _ => none) 4).pwrite 1 src).1).pages a =
          fileByte (MemoryFile.mk (fun _ => none) 4).pages a) ∧
      (src.len = (Buffer.mk (fun _ => 0) 2).len →
        ∀ i, i < src.len →
          ((((MemoryFile.mk (fun _ => none) 4).pwrite 1 src).1).pread 1
              ⟨fun _ => 0, 2⟩).1.data i = src.data i)) ∧
    (∀ addr, (MemoryFile.mk (fun _ => none) 4).pages (addr / PAGE_SIZE) = none →
      fileByte (MemoryFile.mk (fun _ => none) 4).pages addr = 0) :=
  ⟨by norm_num,
    C7_pread_pwrite_roundtrip ⟨fun _ => none, 4⟩ 1 ⟨fun _ => 0, 2⟩ (by norm_num)⟩

end TursoMini
